import Mathlib

/-!
Shallow embedding of the ubasic interpreter core (src/ubasic.c) for the
properties under examination: the string slicing built-ins (`string_cut`,
`string_cut_r`), string relational comparison (`relation`), string
concatenation (the `+` path of `expr` together with `string_temp`), the
FOR/NEXT and GOSUB/RETURN control flow, the lazily built line index
(`index_find`/`index_add`/`jump_linenum`), and the variable store
(`ubasic_set_variable`).

Modelling conventions:
* Machine integers (`value_t`, `line_t`) are modelled as unbounded `Int`;
  none of the properties below concern integer overflow.
* A BASIC string is a length-prefixed byte buffer (one length byte, then
  that many raw bytes).  We model the content as `List Nat` and the
  buffer as the length byte consed in front of the content.
* `Option` models memory reads that can fall outside a buffer: `none`
  means the C code either reads out of bounds or aborts before producing
  an empty/clipped result.
* `memcmp` is modelled sign-normalised (returning -1/0/1), per its C
  contract of returning a negative/zero/positive three-way result.
-/

namespace UBasic

/-- A read of byte `i` (0-based, `Int` index as produced by C pointer
arithmetic) of the length-prefixed buffer holding string `s`: index 0 is
the length byte, indices `1..s.length` are the content bytes.  `none`
means the read is outside the buffer. -/
def bufGet (s : List Nat) (i : Int) : Option Nat :=
  if i < 0 then none else (s.length :: s)[i.toNat]?

/-- `memcpy(dst + 1, p + start, n)` where `p` is the length-prefixed
buffer of `s`: the `n` bytes read, or `none` if any read falls outside
the buffer. -/
def readBytes (s : List Nat) (start : Int) : Nat → Option (List Nat)
  | 0 => some []
  | n + 1 =>
    match bufGet s start, readBytes s (start + 1) n with
    | some b, some rest => some (b :: rest)
    | _, _ => none

/-- `string_cut` (src/ubasic.c lines 213-229), shared by LEFT$ and MID$
(`l` is the 1-based start, `n` the requested count).  If `l` exceeds the
length there is nothing to cut and the result is empty; otherwise the
count is clipped to what remains (`if (f < n) n = f`, i.e. the `min`)
and that many bytes starting at `p + l` are copied.  `none` models the two failure modes of the C code: a clipped
count above 255 makes `string_temp` abort fatally before the copy, and a
negative count reaches `memcpy` as a huge `size_t`, reading out of
bounds (as does a negative `l`, via `p + l`).  The scratch-arena cursor
is not modelled here (see `string_temp` below for claims about it); on
the in-range paths proved below the clipped count never exceeds the
source length, so only the buffer reads matter. -/
def string_cut (s : List Nat) (l n : Int) : Option (List Nat) :=
  if (s.length : Int) < l then some []
  else if 255 < min ((s.length : Int) - (l - 1)) n then none
  else if min ((s.length : Int) - (l - 1)) n < 0 then none
  else readBytes s l (min ((s.length : Int) - (l - 1)) n).toNat

/-- `string_cut_r` (lines 231-240), used by RIGHT$: take the last `r`
bytes; if `r` is at least the length the result is empty. -/
def string_cut_r (s : List Nat) (r : Int) : Option (List Nat) :=
  if (s.length : Int) - r ≤ 0 then some []
  else string_cut s ((s.length : Int) - r + 1) r

/-- LEFT$(s, n) as dispatched in `factor` (line 373): `string_cut` from
position 1. -/
def left_str (s : List Nat) (n : Int) : Option (List Nat) :=
  string_cut s 1 n

/-- MID$(s, start, n) as dispatched in `factor` (line 381). -/
def mid_str (s : List Nat) (start n : Int) : Option (List Nat) :=
  string_cut s start n

/-- One conforming implementation of `memcmp` over the shorter common
length of the two byte lists: it returns exactly -1/0/1 (the sign).
The C library contract promises only the sign of the result, so the
comparison code of `relation` is modelled parametrically in the
implementation (see `memcmp_contract` and `memcmp_bytediff` for a
different conforming implementation). -/
def memcmp_sign : List Nat → List Nat → Int
  | [], _ => 0
  | _ :: _, [] => 0
  | x :: xs, y :: ys =>
    if x < y then -1 else if y < x then 1 else memcmp_sign xs ys

/-- Another conforming implementation of `memcmp`: glibc-style, it
returns the difference of the first differing bytes (for example
`memcmp("A", "C", 1) = -2`). -/
def memcmp_bytediff : List Nat → List Nat → Int
  | [], _ => 0
  | _ :: _, [] => 0
  | x :: xs, y :: ys =>
    if x = y then memcmp_bytediff xs ys else (x : Int) - (y : Int)

/-- The C contract of `memcmp`: the result is negative, zero or
positive exactly as the reference sign comparison says, but its
magnitude is unconstrained. -/
def memcmp_contract (f : List Nat → List Nat → Int) : Prop :=
  ∀ a b, (f a b < 0 ↔ memcmp_sign a b = -1) ∧
         (f a b = 0 ↔ memcmp_sign a b = 0) ∧
         (0 < f a b ↔ memcmp_sign a b = 1)

/-- The three-way value `n` computed by `relation` (lines 524-533) with
`memcmp` implementation `f`: `memcmp` over the shorter common length,
then — only when that returned 0 — ties broken by comparing the length
bytes to exactly 1 or -1.  When `f` returns a nonzero value, `n` is
that raw value, whatever its magnitude. -/
def strcmp3 (f : List Nat → List Nat → Int) (a b : List Nat) : Int :=
  let m := f a b
  if m = 0 then
    if b.length < a.length then 1
    else if a.length < b.length then -1
    else 0
  else m

/-- The six relational operator tokens accepted by `relation`. -/
inductive RelOp where
  | lt | gt | eq | ne | le | ge
deriving DecidableEq

/-- The string branch of `relation` (lines 523-554) with `memcmp`
implementation `f`: the value `n` is mapped to the requested boolean
test by comparing it against the EXACT values -1, 0, 1 (`n == -1`,
`n == 1`, `n != 1`, `n != -1` in the C), giving the C integer 0 or 1. -/
def relation_string (f : List Nat → List Nat → Int) (op : RelOp)
    (a b : List Nat) : Int :=
  let n := strcmp3 f a b
  match op with
  | .lt => if n = -1 then 1 else 0
  | .gt => if n = 1 then 1 else 0
  | .eq => if n = 0 then 1 else 0
  | .le => if n ≠ 1 then 1 else 0
  | .ge => if n ≠ -1 then 1 else 0
  | .ne => if n ≠ 0 then 1 else 0

/-- The two failure modes of `string_temp` (lines 196-206). -/
inductive StrTempErr where
  | tooLong    -- "String too long" (requested length above 255)
  | outOfTemp  -- "Out of temporary space" (arena cursor past the blob)
deriving DecidableEq

/-- `sizeof(stringblob)` (line 193). -/
def STRINGBLOB_SIZE : Nat := 512

/-- `string_temp` (lines 196-206): bump-allocate `len + 1` bytes (length
byte plus content) at cursor `nextstr`; fatal if `len` exceeds 255 or the
new cursor runs past the blob.  Returns the new cursor. -/
def string_temp (nextstr : Nat) (len : Nat) : Except StrTempErr Nat :=
  if 255 < len then .error .tooLong
  else if STRINGBLOB_SIZE < nextstr + len + 1 then .error .outOfTemp
  else .ok (nextstr + len + 1)

/-- The string branch of `+` in `expr` (lines 454-464): allocate a
buffer sized to the sum of the two lengths and copy `a` then `b` into
it.  Returns the result bytes and the new arena cursor. -/
def string_concat (nextstr : Nat) (a b : List Nat) :
    Except StrTempErr (List Nat × Nat) :=
  match string_temp nextstr (a.length + b.length) with
  | .error e => .error e
  | .ok cursor => .ok (a ++ b, cursor)

/-- `struct for_state` (lines 59-64).  The source field `to` is renamed
`toVal` because `to` is a Lean keyword. -/
structure for_state where
  line_after_for : Int
  for_variable : Nat
  toVal : Int
  step : Int
deriving DecidableEq

/-- `MAX_FOR_STACK_DEPTH` (line 66). -/
def MAX_FOR_STACK_DEPTH : Nat := 4

/-- `MAX_GOSUB_STACK_DEPTH` (line 55). -/
def MAX_GOSUB_STACK_DEPTH : Nat := 10

/-- Control outcome of `next_statement`. -/
inductive NextOutcome where
  | jump (line : Int)   -- jump_linenum(fs->line_after_for), frame kept
  | fallthrough         -- frame popped, CR consumed, next line runs
  | mismatchError       -- ubasic_error("Mismatched NEXT"), fatal
deriving DecidableEq

/-- `next_statement` (lines 829-858).  The For stack is modelled as a
list whose head is the top frame (`for_stack[for_stack_ptr - 1]`).  The
C code computes `fs = &for_stack[for_stack_ptr - 1]` before checking the
stack pointer, but the short-circuit `&&` dereferences it only when the
stack is nonempty, so an empty stack is a mismatched-NEXT error with no
state change.  Returns (outcome, variables, For stack). -/
def next_statement (var : Nat) (vars : Nat → Int) (stack : List for_state) :
    NextOutcome × (Nat → Int) × List for_state :=
  match stack with
  | [] => (.mismatchError, vars, [])
  | fs :: rest =>
    if var = fs.for_variable then
      let t := vars var + fs.step
      let vars2 := Function.update vars var t
      if (0 ≤ fs.step ∧ t ≤ fs.toVal) ∨ (fs.step < 0 ∧ fs.toVal ≤ t) then
        (.jump fs.line_after_for, vars2, fs :: rest)
      else
        (.fallthrough, vars2, rest)
    else (.mismatchError, vars, fs :: rest)

/-- `for_statement` (lines 860-897), after its argument parsing: assign
the initial value to the loop variable, then push a frame recording
(resume line, variable, limit, step) if the stack has room; a full stack
is silently ignored (the `else` branch is only a debug print).  The
third component is the diagnostic, always absent. -/
def for_statement (vars : Nat → Int) (stack : List for_state)
    (for_variable : Nat) (init toV stepV line_after : Int) :
    (Nat → Int) × List for_state × Option String :=
  let vars2 := Function.update vars for_variable init
  if stack.length < MAX_FOR_STACK_DEPTH then
    (vars2, ⟨line_after, for_variable, toV, stepV⟩ :: stack, none)
  else
    (vars2, stack, none)

/-- The GOSUB arm of `go_statement` (lines 686-695): with room on the
stack, push the number of the line following the gosub (read from the
token after the consumed CR) and jump to the target; with 10 frames
already on the stack, a fatal error and no push.  Returns (Gosub stack,
jump target, diagnostic). -/
def go_statement_sub (stack : List Int) (following target : Int) :
    List Int × Option Int × Option String :=
  if stack.length < MAX_GOSUB_STACK_DEPTH then
    (following :: stack, some target, none)
  else
    (stack, none, some "Return without gosub")

/-- The token kinds needed to model `return_statement` and the head of
`line_statement`. -/
inductive Tok where
  | num (n : Int)  -- TOKENIZER_NUMBER
  | cr             -- TOKENIZER_CR
  | ret            -- TOKENIZER_RETURN
  | other (k : Nat)
deriving DecidableEq

/-- `return_statement` (lines 818-827): consume the RETURN token; with a
nonempty Gosub stack pop it and jump to the saved line (the jump
repositions the tokenizer, so the pending CR is irrelevant); with an
empty stack do nothing further — in particular the trailing CR token is
NOT consumed.  Returns (Gosub stack, remaining tokens, jump). -/
def return_statement (gosub : List Int) (toks : List Tok) :
    Except String (List Int × List Tok × Option Int) :=
  match toks with
  | .ret :: rest =>
    match gosub with
    | r :: g2 => .ok (g2, rest, some r)
    | [] => .ok ([], rest, none)
  | _ => .error "Syntax"

/-- The head of `line_statement` (lines 1115-1120): the current token
must be a NUMBER (the line number); `accept_tok(TOKENIZER_NUMBER)` on
anything else prints a tokenizer error and exits. -/
def line_statement_head (toks : List Tok) : Except String (Int × List Tok) :=
  match toks with
  | .num n :: rest => .ok (n, rest)
  | _ => .error "Syntax"

/-- A source position (`char const *program_text_position`). -/
abbrev Pos := Nat

/-- The line index list (`struct line_index` chain, head first). -/
abbrev LineIdx := List (Int × Pos)

/-- `index_find` (lines 590-616): walk the chain for the first entry
with the requested line number. -/
def index_find (idx : LineIdx) (n : Int) : Option Pos :=
  (idx.find? (fun e => e.1 == n)).map (fun e => e.2)

/-- `index_add` (lines 618-639): a line number already present is left
alone (first association wins); otherwise a new entry is appended at the
tail. -/
def index_add (idx : LineIdx) (n : Int) (pos : Pos) : LineIdx :=
  if (index_find idx n).isSome then idx else idx ++ [(n, pos)]

/-- `jump_linenum_slow` (lines 641-657): reinitialise the tokenizer to
the program start and scan line by line for the requested number.  The
program is modelled as its list of (line number, position) pairs in
source order; the scan finds the first matching line and adds nothing to
the index. -/
def program_find (prog : List (Int × Pos)) (n : Int) : Option Pos :=
  (prog.find? (fun e => e.1 == n)).map (fun e => e.2)

/-- `jump_linenum` (lines 659-671): resolve via the index, falling back
to the slow scan on a miss.  Returns (position, whether it was a cache
hit, the index — unchanged, the jump never grows it). -/
def jump_linenum (idx : LineIdx) (prog : List (Int × Pos)) (n : Int) :
    Option Pos × Bool × LineIdx :=
  match index_find idx n with
  | some p => (some p, true, idx)
  | none => (program_find prog n, false, idx)

/-- The classes of pointer a string slot or value can hold: the shared
`nullstr` sentinel (line 82), a pointer into the `stringblob` scratch
arena, or a `malloc`ed owned buffer (modelled by an allocation
counter — `malloc` always returns an address distinct from every live
one). -/
inductive Addr where
  | nullstr
  | arena (off : Nat)
  | heap (h : Nat)
deriving DecidableEq

/-- The string side of the Store: `uint8_t *strings[26]` plus the bytes
each slot holds, the next fresh heap address, and the trace of `free`d
pointers. -/
structure StringStore where
  slots : Fin 26 → Addr
  slotBytes : Fin 26 → List Nat
  hnext : Nat
  freed : List Addr

/-- `string_save` (lines 1143-1150): `malloc` a fresh buffer and copy
the length-prefixed bytes into it.  Returns the fresh address. -/
def string_save (st : StringStore) : Addr × StringStore :=
  (Addr.heap st.hnext, { st with hnext := st.hnext + 1 })

/-- The string branch of `ubasic_set_variable` (lines 1154-1159): free
the previous buffer unless it is the `nullstr` sentinel, then store a
fresh `string_save` copy of the value `bytes` whose pointer is `src`
(the `src` pointer itself — possibly an arena pointer — is never
stored). -/
def set_string_variable (st : StringStore) (v : Fin 26) (src : Addr)
    (bytes : List Nat) : StringStore :=
  let st1 := if st.slots v = Addr.nullstr then st
             else { st with freed := st.slots v :: st.freed }
  let ps := string_save st1
  { ps.2 with
      slots := Function.update ps.2.slots v ps.1,
      slotBytes := Function.update ps.2.slotBytes v bytes }

/-- A pointer is a valid slot content for heap bound `hn`: the sentinel,
or an owned heap buffer already allocated (never an arena pointer). -/
def addrOk (hn : Nat) : Addr → Prop
  | .nullstr => True
  | .arena _ => False
  | .heap h => h < hn

/-- Well-formedness of the string store: every slot holds the sentinel
or a live owned heap buffer, and no two distinct slots alias the same
owned buffer. -/
def StoreWF (st : StringStore) : Prop :=
  (∀ i, addrOk st.hnext (st.slots i)) ∧
  (∀ i j, i ≠ j → st.slots i ≠ Addr.nullstr → st.slots i ≠ st.slots j)

/-- The store right after `ubasic_init` (lines 111-112): every slot
holds the sentinel. -/
def initStore : StringStore :=
  { slots := fun _ => Addr.nullstr
    slotBytes := fun _ => []
    hnext := 0
    freed := [] }

/-- `MAX_VARNUM` (line 78): `26 * 11`. -/
def MAX_VARNUM : Int := 26 * 11

/-- The element count of `value_t variables[MAX_VARNUM]` (line 79):
valid indices are `0..285`. -/
def VARIABLES_LEN : Nat := 286

/-- The integer-variable guard shared by `ubasic_set_variable` (line
1162) and `ubasic_get_variable` (line 1176): `varnum >= 0 && varnum <=
MAX_VARNUM`. -/
def int_varnum_accepted (varnum : Int) : Bool :=
  decide (0 ≤ varnum) && decide (varnum ≤ MAX_VARNUM)

/-- A For frame with all fields zero, used to build concrete stacks. -/
def frame0 : for_state := ⟨0, 0, 0, 0⟩

/-- C10: the varnum guard of `ubasic_set_variable`/`ubasic_get_variable`
admits exactly the 287 integers `0..26*11 = 286`, and the accepted value
286 is one past the last valid index of the 286-entry `variables`
table. -/
theorem claim_C10_varnum_guard :
    (∀ v : Int, int_varnum_accepted v = true ↔ (0 ≤ v ∧ v ≤ 286)) ∧
    (Finset.Icc (0 : Int) 286).card = 287 ∧
    int_varnum_accepted 286 = true ∧
    ¬ ((286 : Nat) < VARIABLES_LEN) := by
  refine ⟨?_, ?_, by decide, by decide⟩
  · intro v
    simp only [int_varnum_accepted, MAX_VARNUM, Bool.and_eq_true, decide_eq_true_eq]
    norm_num
  · rw [Int.card_Icc]
    rfl

/-- C6: a GOSUB with fewer than 10 frames on the Gosub stack pushes the
number of the following line and jumps to the target; with 10 frames the
11th nested call produces a fatal diagnostic, pushes nothing and leaves
the stack unchanged. -/
theorem claim_C6_gosub (stack : List Int) (following target : Int) :
    (stack.length < MAX_GOSUB_STACK_DEPTH →
      go_statement_sub stack following target =
        (following :: stack, some target, none)) ∧
    (MAX_GOSUB_STACK_DEPTH ≤ stack.length →
      go_statement_sub stack following target =
        (stack, none, some "Return without gosub")) := by
  constructor
  · intro h
    simp [go_statement_sub, h]
  · intro h
    simp [go_statement_sub, Nat.not_lt.mpr h]

/-- C6 witness: both arms at a concrete stack. -/
theorem claim_C6_gosub_witness :
    go_statement_sub [] 20 100 = ([20], some 100, none) ∧
    go_statement_sub (List.replicate 10 0) 20 100 =
      (List.replicate 10 0, none, some "Return without gosub") :=
  ⟨(claim_C6_gosub [] 20 100).1 (by decide),
   (claim_C6_gosub (List.replicate 10 0) 20 100).2 (by decide)⟩

/-- C7: a FOR executed with 4 frames already on the For stack still
assigns the initial value to the loop variable but pushes no frame,
leaves the stack unchanged and produces no diagnostic. -/
theorem claim_C7_for_overflow (vars : Nat → Int) (stack : List for_state)
    (v : Nat) (init toV stepV line_after : Int)
    (h : MAX_FOR_STACK_DEPTH ≤ stack.length) :
    for_statement vars stack v init toV stepV line_after =
      (Function.update vars v init, stack, none) := by
  simp [for_statement, Nat.not_lt.mpr h]

/-- C7 witness: overflow on a concrete full stack. -/
theorem claim_C7_for_overflow_witness :
    for_statement (fun _ => 0) (List.replicate 4 frame0) 1 5 9 1 20 =
      (Function.update (fun _ => 0) 1 5, List.replicate 4 frame0, none) :=
  claim_C7_for_overflow _ _ _ _ _ _ _ (by decide)

/-- C5 counterexample: RETURN on an empty Gosub stack does not consume
the trailing end-of-line token — the token after the consumed RETURN is
still the CR, not the number of the next line — and the next run-loop step
then fails fatally instead of executing the next line. -/
theorem claim_C5_counterexample :
    return_statement [] [Tok.ret, Tok.cr, Tok.num 20] =
      .ok ([], [Tok.cr, Tok.num 20], none) ∧
    ([Tok.cr, Tok.num 20] ≠ [Tok.num 20]) ∧
    line_statement_head [Tok.cr, Tok.num 20] = .error "Syntax" :=
  ⟨rfl, by decide, rfl⟩

/-- C5 (amended): RETURN with an empty Gosub stack produces no
diagnostic, changes no interpreter state and consumes only the RETURN
token, leaving the end-of-line token unconsumed; the next run-loop line
then fails with a fatal syntax error (its `accept_tok(TOKENIZER_NUMBER)`
sees the CR) instead of continuing with the next line. -/
theorem claim_C5_amended (rest : List Tok) :
    return_statement [] (Tok.ret :: Tok.cr :: rest) =
      .ok ([], Tok.cr :: rest, none) ∧
    line_statement_head (Tok.cr :: rest) = .error "Syntax" :=
  ⟨rfl, rfl⟩

/-- C4: string concatenation yields exactly the bytes of `a` followed by
the bytes of `b` (so lengths add), and it fails with the fatal
String-too-long error precisely when the combined length exceeds 255
(an exhausted scratch arena is a different, Out-of-temporary-space,
error). -/
theorem claim_C4_concat (nextstr : Nat) (a b : List Nat)
    (ha : a.length ≤ 255) (hb : b.length ≤ 255) :
    (∀ bytes cursor, string_concat nextstr a b = .ok (bytes, cursor) →
      bytes = a ++ b ∧ bytes.length = a.length + b.length) ∧
    (string_concat nextstr a b = .error .tooLong ↔
      255 < a.length + b.length) := by
  constructor
  · intro bytes cursor h
    unfold string_concat string_temp at h
    by_cases h255 : 255 < a.length + b.length
    · simp [h255] at h
    · by_cases hcap : STRINGBLOB_SIZE < nextstr + (a.length + b.length) + 1
      · simp [h255, hcap] at h
      · simp [h255, hcap] at h
        refine ⟨h.1.symm, ?_⟩
        rw [← h.1]
        simp
  · unfold string_concat string_temp
    by_cases h255 : 255 < a.length + b.length
    · simp [h255]
    · by_cases hcap : STRINGBLOB_SIZE < nextstr + (a.length + b.length) + 1
      · simp [h255, hcap]
      · simp [h255, hcap]

/-- C4 witness: concatenating two one-byte strings. -/
theorem claim_C4_concat_witness :
    ([72, 73] : List Nat) = [72] ++ [73] ∧
    ([72, 73] : List Nat).length = ([72] : List Nat).length + ([73] : List Nat).length :=
  (claim_C4_concat 0 [72] [73] (by decide) (by decide)).1 [72, 73] 3 rfl

/-- C2: a NEXT naming the variable of the top For frame increments it by
the step of the frame; if the new value has not crossed the limit in
the direction of the sign of the step, control jumps to the line recorded after
the FOR with the frame kept, otherwise the frame is popped and execution
falls through; a NEXT naming any other variable is the fatal
mismatched-NEXT error and changes nothing. -/
theorem claim_C2_next (var : Nat) (vars : Nat → Int) (fs : for_state)
    (rest : List for_state) :
    (var = fs.for_variable →
      (next_statement var vars (fs :: rest)).2.1 var = vars var + fs.step ∧
      ((0 ≤ fs.step ∧ vars var + fs.step ≤ fs.toVal) ∨
         (fs.step < 0 ∧ fs.toVal ≤ vars var + fs.step) →
        (next_statement var vars (fs :: rest)).1 =
          NextOutcome.jump fs.line_after_for ∧
        (next_statement var vars (fs :: rest)).2.2 = fs :: rest) ∧
      (¬ ((0 ≤ fs.step ∧ vars var + fs.step ≤ fs.toVal) ∨
            (fs.step < 0 ∧ fs.toVal ≤ vars var + fs.step)) →
        (next_statement var vars (fs :: rest)).1 = NextOutcome.fallthrough ∧
        (next_statement var vars (fs :: rest)).2.2 = rest)) ∧
    (var ≠ fs.for_variable →
      next_statement var vars (fs :: rest) =
        (NextOutcome.mismatchError, vars, fs :: rest)) := by
  constructor
  · intro h
    subst h
    by_cases hc : (0 ≤ fs.step ∧ vars fs.for_variable + fs.step ≤ fs.toVal) ∨
        (fs.step < 0 ∧ fs.toVal ≤ vars fs.for_variable + fs.step)
    · refine ⟨?_, fun _ => ?_, fun hn => absurd hc hn⟩ <;>
        simp [next_statement, hc, Function.update_same]
    · refine ⟨?_, fun hy => absurd hy hc, fun _ => ?_⟩ <;>
        simp [next_statement, hc, Function.update_same]
  · intro h
    simp [next_statement, h]

/-- C2 witness: `NEXT I` at I = 1 on the frame `FOR I = 1 TO 3` (step
1): increments to 2 and jumps back with the frame kept. -/
theorem claim_C2_next_witness :
    (next_statement 5 (fun _ => 1) [⟨20, 5, 3, 1⟩]).2.1 5 =
      (fun _ => (1 : Int)) 5 + (1 : Int) ∧
    (next_statement 5 (fun _ => 1) [⟨20, 5, 3, 1⟩]).1 = NextOutcome.jump 20 ∧
    (next_statement 5 (fun _ => 1) [⟨20, 5, 3, 1⟩]).2.2 = [⟨20, 5, 3, 1⟩] := by
  have h := (claim_C2_next 5 (fun _ => 1) ⟨20, 5, 3, 1⟩ []).1 rfl
  exact ⟨h.1, (h.2.1 (by decide)).1, (h.2.1 (by decide)).2⟩

/-- Appending a new entry for a line number not yet present makes
`index_find` return it. -/
theorem index_find_append_of_none (idx : LineIdx) (n : Int) (pos : Pos)
    (h : index_find idx n = none) :
    index_find (idx ++ [(n, pos)]) n = some pos := by
  unfold index_find at h ⊢
  have hf : List.find? (fun e : Int × Pos => e.1 == n) idx = none := by
    cases hx : List.find? (fun e : Int × Pos => e.1 == n) idx with
    | none => rfl
    | some a =>
      rw [hx] at h
      simp at h
  rw [List.find?_append, hf]
  simp

/-- C8: a jump to a line number with no index entry but present in the
program succeeds through the fallback scan without touching the index;
once the target line registers itself (the `index_add` performed by
`line_statement` on arrival) the index contains it, and a repeat jump to
the same number is a cache hit; adding a line number already present
leaves the index unchanged (first association wins). -/
theorem claim_C8_index (idx : LineIdx) (prog : List (Int × Pos)) (n : Int)
    (pos : Pos) (hmiss : index_find idx n = none)
    (hprog : program_find prog n = some pos) :
    jump_linenum idx prog n = (some pos, false, idx) ∧
    index_find (index_add idx n pos) n = some pos ∧
    jump_linenum (index_add idx n pos) prog n =
      (some pos, true, index_add idx n pos) ∧
    (∀ (idx2 : LineIdx) (m : Int) (q : Pos),
      (index_find idx2 m).isSome → index_add idx2 m q = idx2) := by
  have hadd : index_add idx n pos = idx ++ [(n, pos)] := by
    simp [index_add, hmiss]
  have hfind : index_find (index_add idx n pos) n = some pos := by
    rw [hadd]
    exact index_find_append_of_none idx n pos hmiss
  refine ⟨?_, hfind, ?_, ?_⟩
  · simp [jump_linenum, hmiss, hprog]
  · simp [jump_linenum, hfind]
  · intro idx2 m q h
    simp [index_add, h]

/-- C8 witness: an empty index, a one-line program. -/
theorem claim_C8_index_witness :
    jump_linenum [] [(100, 5)] 100 = (some 5, false, []) ∧
    index_find (index_add [] 100 5) 100 = some 5 ∧
    jump_linenum (index_add [] 100 5) [(100, 5)] 100 =
      (some 5, true, index_add [] 100 5) := by
  have h := claim_C8_index [] [(100, 5)] 100 5 (by rfl) (by decide)
  exact ⟨h.1, h.2.1, h.2.2.1⟩

/-- C9: assigning to a string slot of a well-formed store releases the
previously owned buffer (unless it is the `nullstr` sentinel, which is
never freed), stores a freshly `malloc`ed copy of the value — never the
source pointer, in particular never an arena pointer — records the
assigned bytes, leaves all other slots untouched, and preserves
well-formedness: no slot holds an arena pointer and no two slots alias
the same owned buffer. -/
theorem claim_C9_store (st : StringStore) (hwf : StoreWF st) (v : Fin 26)
    (src : Addr) (bytes : List Nat) :
    StoreWF (set_string_variable st v src bytes) ∧
    (set_string_variable st v src bytes).slots v = Addr.heap st.hnext ∧
    (∀ o, (set_string_variable st v src bytes).slots v ≠ Addr.arena o) ∧
    (∀ o, src = Addr.arena o →
      (set_string_variable st v src bytes).slots v ≠ src) ∧
    (∀ h, src = Addr.heap h → h < st.hnext →
      (set_string_variable st v src bytes).slots v ≠ src) ∧
    (set_string_variable st v src bytes).slotBytes v = bytes ∧
    (st.slots v ≠ Addr.nullstr →
      (set_string_variable st v src bytes).freed = st.slots v :: st.freed) ∧
    (st.slots v = Addr.nullstr →
      (set_string_variable st v src bytes).freed = st.freed) ∧
    (∀ j, j ≠ v → (set_string_variable st v src bytes).slots j = st.slots j) := by
  have hslots : (set_string_variable st v src bytes).slots =
      Function.update st.slots v (Addr.heap st.hnext) := by
    unfold set_string_variable string_save
    by_cases h : st.slots v = Addr.nullstr <;> simp [h]
  have hbytes : (set_string_variable st v src bytes).slotBytes =
      Function.update st.slotBytes v bytes := by
    unfold set_string_variable string_save
    by_cases h : st.slots v = Addr.nullstr <;> simp [h]
  have hnext2 : (set_string_variable st v src bytes).hnext = st.hnext + 1 := by
    unfold set_string_variable string_save
    by_cases h : st.slots v = Addr.nullstr <;> simp [h]
  have hvslot : (set_string_variable st v src bytes).slots v =
      Addr.heap st.hnext := by
    rw [hslots, Function.update_same]
  have hother : ∀ j, j ≠ v →
      (set_string_variable st v src bytes).slots j = st.slots j := by
    intro j hj
    rw [hslots, Function.update_noteq hj]
  have hnotheap : ∀ j, j ≠ v → st.slots j ≠ Addr.heap st.hnext := by
    intro j _ hcontra
    have := hwf.1 j
    rw [hcontra] at this
    simp [addrOk] at this
  refine ⟨⟨?_, ?_⟩, hvslot, ?_, ?_, ?_, ?_, ?_, ?_, hother⟩
  · intro i
    rw [hnext2]
    by_cases hiv : i = v
    · rw [hiv, hvslot]
      simp [addrOk]
    · rw [hother i hiv]
      have := hwf.1 i
      cases hx : st.slots i <;> simp [addrOk, hx] at this ⊢ <;> omega
  · intro i j hij hne
    by_cases hiv : i = v
    · have hjv : j ≠ v := fun hc => hij (hiv.trans hc.symm)
      rw [hiv, hvslot, hother j hjv]
      exact fun hc => hnotheap j hjv hc.symm
    · by_cases hjv : j = v
      · rw [hother i hiv] at hne ⊢
        rw [hjv, hvslot]
        exact hnotheap i hiv
      · rw [hother i hiv] at hne ⊢
        rw [hother j hjv]
        exact hwf.2 i j hij hne
  · intro o
    rw [hvslot]
    simp
  · intro o ho
    rw [hvslot, ho]
    simp
  · intro h ho hlt
    rw [hvslot, ho]
    simp
    omega
  · rw [hbytes, Function.update_same]
  · intro h
    unfold set_string_variable string_save
    simp [h]
  · intro h
    unfold set_string_variable string_save
    simp [h]

/-- C9 witness: the freshly initialised store (all slots the sentinel) is
well-formed and stays well-formed after assigning an arena-sourced value
to slot 0. -/
theorem claim_C9_store_witness :
    StoreWF initStore ∧
    StoreWF (set_string_variable initStore 0 (Addr.arena 3) [72]) := by
  have hwf : StoreWF initStore := by
    constructor
    · intro i
      simp [initStore, addrOk]
    · intro i j hij hne
      simp [initStore] at hne
  exact ⟨hwf, (claim_C9_store initStore hwf 0 (Addr.arena 3) [72]).1⟩

/-- Reading `n` bytes starting at 1-based position `start` of the
length-prefixed buffer stays in bounds and yields the corresponding
slice of the content whenever the range fits. -/
theorem readBytes_eq_slice (n : Nat) : ∀ (s : List Nat) (start : Int),
    1 ≤ start → start.toNat - 1 + n ≤ s.length →
    readBytes s start n = some ((s.drop (start.toNat - 1)).take n) := by
  induction n with
  | zero =>
    intro s start h1 h2
    simp [readBytes]
  | succ n ih =>
    intro s start h1 h2
    have hlt : start.toNat - 1 < s.length := by omega
    have hstart : start.toNat = (start.toNat - 1) + 1 := by omega
    have hbuf : bufGet s start = some s[start.toNat - 1] := by
      unfold bufGet
      rw [if_neg (by omega)]
      conv_lhs => rw [hstart]
      rw [List.getElem?_cons_succ]
      exact List.getElem?_eq_getElem hlt
    have hrec := ih s (start + 1) (by omega) (by omega)
    have ht : (start + 1).toNat - 1 = start.toNat := by omega
    rw [ht] at hrec
    have hdrop : s.drop (start.toNat - 1) =
        s[start.toNat - 1] :: s.drop start.toNat := by
      rw [List.drop_eq_getElem_cons hlt, ← hstart]
    simp only [readBytes]
    rw [hbuf, hrec, hdrop]
    rfl

/-- The in-range behaviour of `string_cut`: for a genuine 1-based start
and a nonnegative count the reads stay inside the buffer and the result
is the clipped slice. -/
theorem string_cut_spec (s : List Nat) (l n : Int) (hs : s.length ≤ 255)
    (hl : 1 ≤ l) (hn : 0 ≤ n) :
    string_cut s l n = some ((s.drop (l.toNat - 1)).take n.toNat) := by
  unfold string_cut
  by_cases hcase : (s.length : Int) < l
  · rw [if_pos hcase]
    have hdrop : s.drop (l.toNat - 1) = [] :=
      List.drop_eq_nil_of_le (by omega)
    rw [hdrop, List.take_nil]
  · rw [if_neg hcase, if_neg (by omega), if_neg (by omega)]
    push_neg at hcase
    rw [readBytes_eq_slice _ s l hl (by omega)]
    congr 1
    rcases le_or_lt n ((s.length : Int) - (l - 1)) with hnf | hnf
    · rw [min_eq_right hnf]
    · rw [min_eq_left hnf.le]
      have hlen : (s.drop (l.toNat - 1)).length =
          ((s.length : Int) - (l - 1)).toNat := by
        rw [List.length_drop]
        omega
      rw [List.take_of_length_le (le_of_eq hlen),
          List.take_of_length_le (by omega)]

/-- C1 counterexample: MID$("A", -1, 1) makes `string_cut` read the byte
before the buffer (`memcpy` from `p + l` with `l = -1`), and
LEFT$("A", -1) passes the negative count straight to `memcpy` as a huge
`size_t`; neither degrades to an empty or clipped string result. -/
theorem claim_C1_counterexample :
    mid_str [65] (-1) 1 = none ∧ left_str [65] (-1) = none := by
  constructor <;> decide

/-- C1 (amended): LEFT$ and MID$ stay inside the buffer and degrade to
empty or clipped results for every start at least 1 and every
nonnegative count — and RIGHT$ does so for every count, positive or not
— but a MID$ start below 1 or a negative LEFT$/MID$ count produces an
out-of-bounds read instead. -/
theorem claim_C1_amended (s : List Nat) (l n r : Int) (hs : s.length ≤ 255)
    (hl : 1 ≤ l) (hn : 0 ≤ n) :
    mid_str s l n = some ((s.drop (l.toNat - 1)).take n.toNat) ∧
    left_str s n = some (s.take n.toNat) ∧
    string_cut_r s r =
      some (if (s.length : Int) ≤ r ∨ r < 0 then []
            else s.drop ((s.length : Int) - r).toNat) := by
  refine ⟨string_cut_spec s l n hs hl hn, ?_, ?_⟩
  · have h := string_cut_spec s 1 n hs (by omega) hn
    unfold left_str
    rw [h]
    norm_num
  · unfold string_cut_r
    by_cases h1 : (s.length : Int) - r ≤ 0
    · rw [if_pos h1, if_pos (Or.inl (by omega))]
    · rw [if_neg h1]
      by_cases h2 : r < 0
      · rw [if_pos (Or.inr h2)]
        unfold string_cut
        rw [if_pos (by omega)]
      · rw [if_neg (by omega)]
        have h := string_cut_spec s ((s.length : Int) - r + 1) r hs
          (by omega) (by omega)
        rw [h]
        have he : ((s.length : Int) - r + 1).toNat - 1 =
            ((s.length : Int) - r).toNat := by omega
        rw [he]
        congr 1
        exact List.take_of_length_le (by rw [List.length_drop]; omega)

/-- C1 (amended) witness: MID$("HI", 2, 5), LEFT$("HI", 5) and
RIGHT$("HI", 1). -/
theorem claim_C1_amended_witness :
    mid_str [72, 73] 2 5 = some [73] ∧
    left_str [72, 73] 5 = some [72, 73] ∧
    string_cut_r [72, 73] 1 = some [73] := by
  have h := claim_C1_amended [72, 73] 2 5 1 (by decide) (by decide) (by decide)
  exact ⟨h.1.trans (by decide), h.2.1.trans (by decide), h.2.2.trans (by decide)⟩

/-- Equal heads cancel in the three-way comparison under the
sign-normalised implementation. -/
theorem strcmp3_cons (x : Nat) (xs ys : List Nat) :
    strcmp3 memcmp_sign (x :: xs) (x :: ys) = strcmp3 memcmp_sign xs ys := by
  simp [strcmp3, memcmp_sign, Nat.lt_irrefl]

/-- The sign-normalised `memcmp` takes only the values -1, 0, 1. -/
theorem memcmp_sign_mem : ∀ (a b : List Nat),
    memcmp_sign a b = -1 ∨ memcmp_sign a b = 0 ∨ memcmp_sign a b = 1 := by
  intro a
  induction a with
  | nil =>
    intro b
    simp [memcmp_sign]
  | cons x xs ih =>
    intro b
    cases b with
    | nil => simp [memcmp_sign]
    | cons y ys =>
      by_cases h1 : x < y
      · simp [memcmp_sign, h1]
      · by_cases h2 : y < x
        · simp [memcmp_sign, h1, h2]
        · simpa [memcmp_sign, h1, h2] using ih ys

/-- The sign-normalised implementation satisfies the `memcmp`
contract. -/
theorem memcmp_sign_contract : memcmp_contract memcmp_sign := by
  intro a b
  rcases memcmp_sign_mem a b with h | h | h <;> rw [h] <;> decide

/-- The byte-difference implementation agrees in sign with the
reference sign comparison. -/
theorem memcmp_bytediff_vs_sign : ∀ (a b : List Nat),
    (memcmp_bytediff a b < 0 ↔ memcmp_sign a b = -1) ∧
    (memcmp_bytediff a b = 0 ↔ memcmp_sign a b = 0) ∧
    (0 < memcmp_bytediff a b ↔ memcmp_sign a b = 1) := by
  intro a
  induction a with
  | nil =>
    intro b
    simp [memcmp_bytediff, memcmp_sign]
  | cons x xs ih =>
    intro b
    cases b with
    | nil => simp [memcmp_bytediff, memcmp_sign]
    | cons y ys =>
      by_cases hxy : x = y
      · subst hxy
        simpa [memcmp_bytediff, memcmp_sign, Nat.lt_irrefl] using ih ys
      · rcases Nat.lt_trichotomy x y with h | h | h
        · simp only [memcmp_bytediff, memcmp_sign, if_neg hxy, if_pos h,
            iff_true]
          omega
        · exact absurd h hxy
        · simp only [memcmp_bytediff, memcmp_sign, if_neg hxy,
            if_neg (Nat.lt_asymm h), if_pos h, iff_true]
          omega

/-- The glibc-style byte-difference `memcmp` is a conforming
implementation. -/
theorem memcmp_bytediff_contract : memcmp_contract memcmp_bytediff :=
  fun a b => memcmp_bytediff_vs_sign a b

/-- Whether the three-way value is zero does not depend on which
conforming `memcmp` computed it. -/
theorem strcmp3_zero_congr (f : List Nat → List Nat → Int)
    (hf : memcmp_contract f) (a b : List Nat) :
    strcmp3 f a b = 0 ↔ strcmp3 memcmp_sign a b = 0 := by
  by_cases h : f a b = 0
  · have hs : memcmp_sign a b = 0 := ((hf a b).2.1).mp h
    unfold strcmp3
    rw [if_pos h, if_pos hs]
  · have hs : ¬ memcmp_sign a b = 0 := fun hc => h (((hf a b).2.1).mpr hc)
    unfold strcmp3
    rw [if_neg h, if_neg hs]
    exact iff_of_false h hs

/-- The three-way comparison (sign-normalised implementation) takes
only the values -1, 0, 1. -/
theorem strcmp3_sign_mem (a b : List Nat) :
    strcmp3 memcmp_sign a b = -1 ∨ strcmp3 memcmp_sign a b = 0 ∨
      strcmp3 memcmp_sign a b = 1 := by
  unfold strcmp3
  rcases memcmp_sign_mem a b with h | h | h <;> rw [h]
  · norm_num
  · by_cases h1 : b.length < a.length
    · simp [h1]
    · by_cases h2 : a.length < b.length <;> simp [h1, h2]
  · norm_num

/-- The three-way comparison (sign-normalised implementation) is zero
exactly on equal strings. -/
theorem strcmp3_eq_zero_iff : ∀ (a b : List Nat),
    strcmp3 memcmp_sign a b = 0 ↔ a = b := by
  intro a
  induction a with
  | nil =>
    intro b
    cases b with
    | nil => simp [strcmp3, memcmp_sign]
    | cons y ys => simp [strcmp3, memcmp_sign]
  | cons x xs ih =>
    intro b
    cases b with
    | nil => simp [strcmp3, memcmp_sign]
    | cons y ys =>
      rcases Nat.lt_trichotomy x y with h | h | h
      · have hm : memcmp_sign (x :: xs) (y :: ys) = -1 := by
          simp [memcmp_sign, h]
        have hs : strcmp3 memcmp_sign (x :: xs) (y :: ys) = -1 := by
          simp [strcmp3, hm]
        simp [hs, Nat.ne_of_lt h]
      · subst h
        rw [strcmp3_cons]
        simp [ih ys]
      · have hm : memcmp_sign (x :: xs) (y :: ys) = 1 := by
          simp [memcmp_sign, Nat.lt_asymm h, h]
        have hs : strcmp3 memcmp_sign (x :: xs) (y :: ys) = 1 := by
          simp [strcmp3, hm]
        simp [hs, (Nat.ne_of_lt h).symm]

/-- The three-way comparison (sign-normalised implementation) is -1
exactly on the lexicographic strict order of byte lists (first
differing byte decides; a strict common prefix of the other string is
smaller: the length tie-break). -/
theorem strcmp3_eq_neg_one_iff : ∀ (a b : List Nat),
    strcmp3 memcmp_sign a b = -1 ↔ List.Lex (· < ·) a b := by
  intro a
  induction a with
  | nil =>
    intro b
    cases b with
    | nil => simp [strcmp3, memcmp_sign, List.Lex.not_nil_right]
    | cons y ys =>
      have hs : strcmp3 memcmp_sign [] (y :: ys) = -1 := by
        simp [strcmp3, memcmp_sign]
      rw [hs]
      exact ⟨fun _ => List.Lex.nil, fun _ => rfl⟩
  | cons x xs ih =>
    intro b
    cases b with
    | nil => simp [strcmp3, memcmp_sign, List.Lex.not_nil_right]
    | cons y ys =>
      rcases Nat.lt_trichotomy x y with h | h | h
      · have hs : strcmp3 memcmp_sign (x :: xs) (y :: ys) = -1 := by
          simp [strcmp3, memcmp_sign, h]
        rw [hs]
        exact ⟨fun _ => List.Lex.rel h, fun _ => rfl⟩
      · subst h
        rw [strcmp3_cons, List.Lex.cons_iff]
        exact ih ys
      · have hs : strcmp3 memcmp_sign (x :: xs) (y :: ys) = 1 := by
          simp [strcmp3, memcmp_sign, Nat.lt_asymm h, h]
        rw [hs]
        constructor
        · intro hc
          exact absurd hc (by norm_num)
        · intro hlex
          exfalso
          cases hlex with
          | cons h1 => omega
          | rel h1 => omega

/-- The three-way comparison (sign-normalised implementation) is 1
exactly when the right string is lexicographically smaller. -/
theorem strcmp3_eq_one_iff : ∀ (a b : List Nat),
    strcmp3 memcmp_sign a b = 1 ↔ List.Lex (· < ·) b a := by
  intro a
  induction a with
  | nil =>
    intro b
    cases b with
    | nil => simp [strcmp3, memcmp_sign, List.Lex.not_nil_right]
    | cons y ys =>
      have hs : strcmp3 memcmp_sign [] (y :: ys) = -1 := by
        simp [strcmp3, memcmp_sign]
      rw [hs]
      simp [List.Lex.not_nil_right]
  | cons x xs ih =>
    intro b
    cases b with
    | nil =>
      have hs : strcmp3 memcmp_sign (x :: xs) [] = 1 := by
        simp [strcmp3, memcmp_sign]
      rw [hs]
      exact ⟨fun _ => List.Lex.nil, fun _ => rfl⟩
    | cons y ys =>
      rcases Nat.lt_trichotomy x y with h | h | h
      · have hs : strcmp3 memcmp_sign (x :: xs) (y :: ys) = -1 := by
          simp [strcmp3, memcmp_sign, h]
        rw [hs]
        constructor
        · intro hc
          exact absurd hc (by norm_num)
        · intro hlex
          exfalso
          cases hlex with
          | cons h1 => omega
          | rel h1 => omega
      · subst h
        rw [strcmp3_cons, List.Lex.cons_iff]
        exact ih ys
      · have hs : strcmp3 memcmp_sign (x :: xs) (y :: ys) = 1 := by
          simp [strcmp3, memcmp_sign, Nat.lt_asymm h, h]
        rw [hs]
        exact ⟨fun _ => List.Lex.rel h, fun _ => rfl⟩

/-- An `if-then-else` over the C integers 1 and 0 is 0 or 1. -/
theorem ite_eq_zero_or_one (c : Prop) [Decidable c] :
    (if c then (1 : Int) else 0) = 0 ∨ (if c then (1 : Int) else 0) = 1 := by
  split <;> simp

/-- An `if-then-else` over the C integers 1 and 0 equals 1 exactly when
the condition holds. -/
theorem ite_one_zero_eq_one_iff (c : Prop) [Decidable c] :
    (if c then (1 : Int) else 0) = 1 ↔ c := by
  split
  · exact iff_of_true rfl (by assumption)
  · exact iff_of_false (by norm_num) (by assumption)

/-- C3 counterexample: under the byte-difference implementation of
`memcmp` — a conforming one, used by mainstream C libraries such as
glibc — comparing "A" with "C" produces the three-way value -2, outside
{-1,0,1}, and the `n == -1` test of the `<` operator then yields 0 even
though "A" is lexicographically smaller, so the claimed mapping to the
requested boolean test fails. -/
theorem claim_C3_counterexample :
    memcmp_contract memcmp_bytediff ∧
    strcmp3 memcmp_bytediff [65] [67] = -2 ∧
    ¬ (strcmp3 memcmp_bytediff [65] [67] = -1 ∨
        strcmp3 memcmp_bytediff [65] [67] = 0 ∨
        strcmp3 memcmp_bytediff [65] [67] = 1) ∧
    relation_string memcmp_bytediff RelOp.lt [65] [67] = 0 ∧
    List.Lex (· < ·) ([65] : List Nat) [67] :=
  ⟨memcmp_bytediff_contract, by decide, by decide, by decide,
   List.Lex.rel (by decide)⟩

/-- C3 (amended): for every conforming `memcmp` the result of a string
relational test is the integer 0 or 1, and the `=` and `<>` mappings
are correct (they test the three-way value only against 0, which the
contract pins down); the full original claim — three-way outcome in
{-1,0,1}, lexicographic over the shorter common prefix with ties broken
by length, all six operators mapped to the requested boolean test —
holds exactly when `memcmp` returns the normalised values -1/0/1, as
`memcmp_sign` does, because the code compares the raw `memcmp` value
against -1 and 1. -/
theorem claim_C3_amended (f : List Nat → List Nat → Int)
    (hf : memcmp_contract f) (a b : List Nat) :
    (∀ op, relation_string f op a b = 0 ∨ relation_string f op a b = 1) ∧
    (relation_string f RelOp.eq a b = 1 ↔ a = b) ∧
    (relation_string f RelOp.ne a b = 1 ↔ ¬ a = b) ∧
    (strcmp3 memcmp_sign a b = -1 ∨ strcmp3 memcmp_sign a b = 0 ∨
      strcmp3 memcmp_sign a b = 1) ∧
    (relation_string memcmp_sign RelOp.lt a b = 1 ↔ List.Lex (· < ·) a b) ∧
    (relation_string memcmp_sign RelOp.gt a b = 1 ↔ List.Lex (· < ·) b a) ∧
    (relation_string memcmp_sign RelOp.eq a b = 1 ↔ a = b) ∧
    (relation_string memcmp_sign RelOp.ne a b = 1 ↔ ¬ a = b) ∧
    (relation_string memcmp_sign RelOp.le a b = 1 ↔ ¬ List.Lex (· < ·) b a) ∧
    (relation_string memcmp_sign RelOp.ge a b = 1 ↔ ¬ List.Lex (· < ·) a b) := by
  have hzero := (strcmp3_zero_congr f hf a b).trans (strcmp3_eq_zero_iff a b)
  refine ⟨?_, ?_, ?_, strcmp3_sign_mem a b, ?_, ?_, ?_, ?_, ?_, ?_⟩
  · intro op
    cases op <;> exact ite_eq_zero_or_one _
  · show (if strcmp3 f a b = 0 then (1 : Int) else 0) = 1 ↔ a = b
    rw [ite_one_zero_eq_one_iff]
    exact hzero
  · show (if strcmp3 f a b ≠ 0 then (1 : Int) else 0) = 1 ↔ ¬ a = b
    rw [ite_one_zero_eq_one_iff]
    exact not_congr hzero
  · show (if strcmp3 memcmp_sign a b = -1 then (1 : Int) else 0) = 1 ↔
      List.Lex (· < ·) a b
    rw [ite_one_zero_eq_one_iff]
    exact strcmp3_eq_neg_one_iff a b
  · show (if strcmp3 memcmp_sign a b = 1 then (1 : Int) else 0) = 1 ↔
      List.Lex (· < ·) b a
    rw [ite_one_zero_eq_one_iff]
    exact strcmp3_eq_one_iff a b
  · show (if strcmp3 memcmp_sign a b = 0 then (1 : Int) else 0) = 1 ↔ a = b
    rw [ite_one_zero_eq_one_iff]
    exact strcmp3_eq_zero_iff a b
  · show (if strcmp3 memcmp_sign a b ≠ 0 then (1 : Int) else 0) = 1 ↔ ¬ a = b
    rw [ite_one_zero_eq_one_iff]
    exact not_congr (strcmp3_eq_zero_iff a b)
  · show (if strcmp3 memcmp_sign a b ≠ 1 then (1 : Int) else 0) = 1 ↔
      ¬ List.Lex (· < ·) b a
    rw [ite_one_zero_eq_one_iff]
    exact not_congr (strcmp3_eq_one_iff a b)
  · show (if strcmp3 memcmp_sign a b ≠ -1 then (1 : Int) else 0) = 1 ↔
      ¬ List.Lex (· < ·) a b
    rw [ite_one_zero_eq_one_iff]
    exact not_congr (strcmp3_eq_neg_one_iff a b)

/-- C3 (amended) witness: the sign-normalised implementation at "A"
versus "B". -/
theorem claim_C3_amended_witness :
    (relation_string memcmp_sign RelOp.lt [65] [66] = 0 ∨
      relation_string memcmp_sign RelOp.lt [65] [66] = 1) ∧
    (relation_string memcmp_sign RelOp.eq [65] [66] = 1 ↔
      ([65] : List Nat) = [66]) := by
  have h := claim_C3_amended memcmp_sign memcmp_sign_contract [65] [66]
  exact ⟨h.1 RelOp.lt, h.2.2.2.2.2.2.1⟩

/-- C5 (amended) witness: a concrete token tail. -/
theorem claim_C5_amended_witness :
    return_statement [] [Tok.ret, Tok.cr, Tok.num 30] =
      .ok ([], [Tok.cr, Tok.num 30], none) ∧
    line_statement_head [Tok.cr, Tok.num 30] = .error "Syntax" :=
  claim_C5_amended [Tok.num 30]

end UBasic
